import Mathlib

/-!
Verification of the CYP2D6 genotype pipeline
(`preprocess_data.py` and `genotype_CYP2D6.py`).

Python dictionaries are embedded as association lists
(`List (String × β)`) with the insertion-order semantics of Python
dicts: assignment to an existing key updates the entry in place,
assignment to a fresh key appends at the end.  Python values that flow
through the matcher and the pair generator (strings, ints, `None`) are
embedded as `PyObj`; Builder-stage tables, whose values are all
strings, use `String` values directly.  Python exceptions are modelled
with `Except`.
-/

/-- Values held in a Python dict cell in this pipeline: `None`,
an `int`, or a `str`. -/
inductive PyObj : Type where
  | noneV : PyObj
  | intV : Int → PyObj
  | strV : String → PyObj
deriving DecidableEq

instance instDecEqExcept {ε α : Type} [DecidableEq ε] [DecidableEq α] :
    DecidableEq (Except ε α) := fun x y =>
  match x, y with
  | Except.ok a, Except.ok b =>
      if h : a = b then isTrue (by rw [h])
      else isFalse (fun he => h (by injection he))
  | Except.error a, Except.error b =>
      if h : a = b then isTrue (by rw [h])
      else isFalse (fun he => h (by injection he))
  | Except.ok _, Except.error _ => isFalse (fun he => Except.noConfusion he)
  | Except.error _, Except.ok _ => isFalse (fun he => Except.noConfusion he)

/-- Attribute map of one haplotype or one diplotype row
(rsID/CNV/Ranking → value). -/
abbrev AttrMap : Type := List (String × PyObj)

/-- Table from haplotype or diplotype name to its attribute map. -/
abbrev Table : Type := List (String × AttrMap)

/-- Builder-stage attribute map: every value is still a string. -/
abbrev StrAttrMap : Type := List (String × String)

/-- Builder-stage haplotype table (string-valued attributes). -/
abbrev StrTable : Type := List (String × StrAttrMap)

/-- Lookup in a Python dict: the value of the first entry with the
given key (Python dicts hold each key once). -/
def pyLookup {β : Type} : List (String × β) → String → Option β
  | [], _ => none
  | (k', v) :: rest, k => if k' = k then some v else pyLookup rest k

/-- Python `d[k] = v`: update the entry in place if the key exists,
otherwise append the new entry at the end. -/
def pySetItem {β : Type} : List (String × β) → String → β → List (String × β)
  | [], k, v => [(k, v)]
  | (k', v') :: rest, k, v =>
      if k' = k then (k, v) :: rest else (k', v') :: pySetItem rest k v

/-- The keys of a dict, in insertion order. -/
def keysOf {β : Type} (l : List (String × β)) : List String :=
  l.map Prod.fst

/-- Python `str(...)` of a value as it appears in an f-string:
`None` prints as `"None"`, ints in decimal, strings verbatim. -/
def pyFmt : PyObj → String
  | PyObj.noneV => "None"
  | PyObj.intV z => toString z
  | PyObj.strV s => s

/-- Whether a value is a Python `str`. -/
def isStrB : PyObj → Bool
  | PyObj.strV _ => true
  | _ => false

/-- Python `s.split('/')` on the character list of a string. -/
def splitSlash : List Char → List String
  | [] => [""]
  | c :: rest =>
      match splitSlash rest with
      | s :: ss => if c = '/' then "" :: s :: ss else (⟨c :: s.data⟩ : String) :: ss
      | [] => [""]

/-- Python `s.split('/')`. -/
def pySplit (s : String) : List String :=
  splitSlash s.data

/-- Python `set(a) == set(b)` for two lists of strings: extensional
equality of the underlying finite sets. -/
def setEqB (a b : List String) : Bool :=
  a.all (fun s => b.contains s) && b.all (fun s => a.contains s)

/-- A string not containing the `'/'` separator character. -/
abbrev slashFree (s : String) : Prop := '/' ∉ s.data

/-!
## Haplotype Table Builder — sub-variant collapsing
(`preprocess_data.py`, `filter_for_rsnumbers`, lines 110-122)
-/

/-- Python `'.' in name`. -/
def containsDot (s : String) : Bool := s.data.any (fun c => decide (c = '.'))

/-- Python `name.split('.')[0]`: everything before the first dot. -/
def mainOf (s : String) : String := ⟨s.data.takeWhile (fun c => decide (c ≠ '.'))⟩

/-- The collapse loop of `filter_for_rsnumbers` (lines 110-122): a
haplotype whose name contains a `'.'` is removed when its base
haplotype (the name before the first dot) exists in the table with an
identical attribute map.  Deleting sub-variants never changes any base
entry (a base name has no dot), so the loop is a filter against
lookups in the original table. -/
def collapse_subvariants (d : StrTable) : StrTable :=
  d.filter (fun e => !(containsDot e.1 && decide (pyLookup d (mainOf e.1) = some e.2)))

/-!
## Special Combination Expander
(`preprocess_data.py`, `special_combinations`, lines 126-163)
-/

/-- The list comprehension of lines 146-150: the allele value of each
combination member that both exists in the table and has an entry for
the site; unknown members or members without the site contribute
nothing. -/
def collectNames (d : StrTable) (combo : List String) (k : String) : List String :=
  combo.filterMap (fun part => (pyLookup d part).bind (fun m => pyLookup m k))

/-- Lexicographic order on character lists by code point, as Python
compares strings. -/
def lexLe : List Char → List Char → Bool
  | [], _ => true
  | _ :: _, [] => false
  | x :: xs, y :: ys =>
      if x.toNat < y.toNat then true
      else if y.toNat < x.toNat then false
      else lexLe xs ys

/-- Python `a <= b` on strings. -/
def strLe (a b : String) : Bool := lexLe a.data b.data

/-- Python `sorted(...)` on a list of strings: a stable insertion
sort, ascending by code point. -/
def sortStr (l : List String) : List String :=
  List.insertionSort (fun a b => strLe a b = true) l

/-- Python `sep.join(parts)`. -/
def joinWith (sep : String) : List String → String
  | [] => ""
  | [s] => s
  | s :: rest => s ++ sep ++ joinWith sep rest

/-- Lines 152-158 of `special_combinations`: no contributor gives the
sentinel `"-"`; a single distinct contributed value is used as is;
otherwise the distinct values are sorted and joined with `"/"`
(Python `'/'.join(sorted(set(names)))`). -/
def mergedName : List String → String
  | [] => "-"
  | n :: rest =>
      if rest.all (fun s => decide (s = n)) then n
      else joinWith "/" (sortStr ((n :: rest).dedup))

/-- Python `"+".join(combination)` (line 140). -/
def joinPlusName (combo : List String) : String := joinWith "+" combo

/-- The inner rsID loop of `special_combinations` (lines 144-161),
writing each merged allele into the combined haplotype's entry. -/
def sc_go (cname : String) (combo : List String) : List String → StrTable → StrTable
  | [], d => d
  | k :: ks, d =>
      sc_go cname combo ks
        (pySetItem d cname
          (pySetItem ((pyLookup d cname).getD []) k
            (mergedName (collectNames d combo k))))

/-- Processing of a single combination tuple (lines 139-161): create
the combined entry (initially empty), then fill it site by site. -/
def sc_one (data : StrTable) (combo : List String) (rsIds : List String) : StrTable :=
  sc_go (joinPlusName combo) combo rsIds (pySetItem data (joinPlusName combo) [])

/-- `special_combinations` (lines 126-163) over a list of combination
tuples. -/
def special_combinations (data : StrTable) (combos : List (List String))
    (rsIds : List String) : StrTable :=
  combos.foldl (fun d combo => sc_one d combo rsIds) data

/-!
## CNV Annotator
(`preprocess_data.py`, `add_cnv_values_ex9`, lines 165-197)
-/

/-- Per-haplotype body of the loop in `add_cnv_values_ex9`
(lines 178-195): default CNV 1, exception names get 0, then a
presence in the override mapping rewrites the value. -/
def cnvStepEntry (excs : List String) (ovs : List (String × Int))
    (name : String) (m : AttrMap) : AttrMap :=
  let c1 : Int := if name ∈ excs then 0 else 1
  let m1 := pySetItem m "CNV" (PyObj.intV c1)
  match pyLookup ovs name with
  | some v => pySetItem m1 "CNV" (PyObj.intV v)
  | none => m1

/-- `add_cnv_values_ex9` (lines 165-197): assign a CNV value to every
haplotype of the table. -/
def add_cnv_values_ex9 (data : Table) (excs : List String)
    (ovs : List (String × Int)) : Table :=
  data.map (fun e => (e.1, cnvStepEntry excs ovs e.1 e.2))

/-!
## Diplotype Pair Generator
(`preprocess_data.py`, `extract_numeric_value` lines 261-272 and
`pair_haplotypes` lines 274-314)
-/

/-- Accumulate the numeric value of a maximal leading digit run
(the regex group `([0-9]+)`). -/
def digitsVal (acc : Nat) : List Char → Nat
  | [] => acc
  | c :: rest => if c.isDigit then digitsVal (acc * 10 + (c.toNat - 48)) rest else acc

/-- `re.search(r'\*([0-9]+)', name)`: scan for the first `'*'` that is
immediately followed by a digit and read the digit run; `0` when no
such position exists. -/
def extractNumL : List Char → Nat
  | [] => 0
  | c :: rest =>
      if c = '*' then
        match rest with
        | d :: _ => if d.isDigit then digitsVal 0 rest else extractNumL rest
        | [] => 0
      else extractNumL rest

/-- `extract_numeric_value` (lines 261-272). -/
def extract_numeric_value (s : String) : Nat := extractNumL s.data

/-- `sorted([h1, h2], key=extract_numeric_value)`: a stable two-element
sort, swapping only when the second key is strictly smaller. -/
def sort2 (a b : String) : String × String :=
  if extract_numeric_value b < extract_numeric_value a then (b, a) else (a, b)

/-- The canonical diplotype label (line 295):
`f"{sorted[0]}/{sorted[1]}"`. -/
def pairLabel (p : String × String) : String :=
  (sort2 p.1 p.2).1 ++ "/" ++ (sort2 p.1 p.2).2

/-- Python `value1 + value2`: int addition or string concatenation;
any other combination (for example `None + int`) raises `TypeError`. -/
def pyAdd : PyObj → PyObj → Except Unit PyObj
  | PyObj.intV a, PyObj.intV b => Except.ok (PyObj.intV (a + b))
  | PyObj.strV a, PyObj.strV b => Except.ok (PyObj.strV (a ++ b))
  | _, _ => Except.error ()

/-- Python `d.get(k)`: `None` when the key is absent. -/
def pyGet (m : AttrMap) (k : String) : PyObj := (pyLookup m k).getD PyObj.noneV

/-- Lines 305-309 of `pair_haplotypes`: `"CNV"` and `"Ranking"` are
combined with `+`; any other attribute keeps the common value when the
two sides agree and is otherwise the f-string join
`f"{value1}/{value2}"` in argument order. -/
def combineVal (k : String) (v1 v2 : PyObj) : Except Unit PyObj :=
  if k = "CNV" ∨ k = "Ranking" then pyAdd v1 v2
  else Except.ok (if v1 = v2 then v1 else PyObj.strV (pyFmt v1 ++ "/" ++ pyFmt v2))

/-- `set(keys1).union(keys2)` (line 301), as a duplicate-free key
list. -/
def unionKeys (d1 d2 : AttrMap) : List String := (keysOf d1 ++ keysOf d2).dedup

/-- The attribute loop of one pair (lines 300-312), writing each
combined value into the pair's entry. -/
def mergeGo (d1 d2 : AttrMap) : List String → AttrMap → Except Unit AttrMap
  | [], cur => Except.ok cur
  | k :: ks, cur =>
      match combineVal k (pyGet d1 k) (pyGet d2 k) with
      | Except.error e => Except.error e
      | Except.ok v => mergeGo d1 d2 ks (pySetItem cur k v)

/-- The merged record computed for one pair starting from a fresh
(empty) entry. -/
def mergePair (d1 d2 : AttrMap) : Except Unit AttrMap :=
  mergeGo d1 d2 (unionKeys d1 d2) []

/-- `itertools.combinations_with_replacement(l, 2)`, in its iteration
order. -/
def cwr {α : Type} : List α → List (α × α)
  | [] => []
  | x :: xs => (x :: xs).map (fun y => (x, y)) ++ cwr xs

/-- Body of the pair loop (lines 292-312) for one pair: fetch the two
attribute maps, reuse the entry already stored under the canonical
label when present (the collision case of line 297), and merge. -/
def pairStep (data : Table) (t : Table) (p : String × String) : Except Unit Table :=
  match mergeGo ((pyLookup data p.1).getD []) ((pyLookup data p.2).getD [])
      (unionKeys ((pyLookup data p.1).getD []) ((pyLookup data p.2).getD []))
      ((pyLookup t (pairLabel p)).getD []) with
  | Except.error e => Except.error e
  | Except.ok m => Except.ok (pySetItem t (pairLabel p) m)

/-- The pair loop over a given pair list. -/
def pairsGo (data : Table) : List (String × String) → Table → Except Unit Table
  | [], t => Except.ok t
  | p :: ps, t =>
      match pairStep data t p with
      | Except.error e => Except.error e
      | Except.ok t' => pairsGo data ps t'

/-- `pair_haplotypes` (lines 274-314). -/
def pair_haplotypes (data : Table) : Except Unit Table :=
  pairsGo data (cwr (keysOf data)) []

/-!
## Genotype Matcher
(`genotype_CYP2D6.py`, `evaluate_matches` lines 100-134 and
`print_matches` lines 157-163)
-/

/-- The two exception kinds the matcher loop can see. -/
inductive PyErr : Type where
  | keyError : PyErr
  | attributeError : PyErr
deriving DecidableEq

/-- Python attribute access `v.split` on an observation value: only a
`str` has `split`; anything else raises `AttributeError`. -/
def asStr : PyObj → Except PyErr String
  | PyObj.strV s => Except.ok s
  | _ => Except.error PyErr.attributeError

/-- The list comprehension of `evaluate_matches` (lines 120-124): for
every key of `data_input` that is also a column of the row, compare the
two `"/"`-split allele sets; the whole comprehension is evaluated, so
the first raising element determines the exception. -/
def rowCheck (row : AttrMap) : List (String × PyObj) → Except PyErr Bool
  | [] => Except.ok true
  | (k, v) :: rest =>
      match pyLookup row k with
      | some w =>
          match asStr v with
          | Except.error e => Except.error e
          | Except.ok s =>
              match rowCheck row rest with
              | Except.error e => Except.error e
              | Except.ok b2 =>
                  Except.ok (setEqB (pySplit s) (pySplit (pyFmt w)) && b2)
      | none => rowCheck row rest

/-- Pure match predicate: the value of `rowCheck` when every
observation value is a string. -/
def matchB (row : AttrMap) (input : List (String × PyObj)) : Bool :=
  input.all (fun p =>
    match pyLookup row p.1 with
    | some w => setEqB (pySplit (pyFmt p.2)) (pySplit (pyFmt w))
    | none => true)

/-- `evaluate_matches` (lines 100-134): walk the diplotype rows; a row
whose comparisons all succeed contributes its `"Genotype"` value.  The
`except` clause catches `KeyError` only, so an `AttributeError`
propagates out of the whole call (error type collapsed to `Unit`). -/
def evaluate_matches (rows : List AttrMap) (input : List (String × PyObj)) :
    Except Unit (List PyObj) :=
  match rows with
  | [] => Except.ok []
  | r :: rs =>
      match rowCheck r input with
      | Except.error PyErr.attributeError => Except.error ()
      | Except.error PyErr.keyError => evaluate_matches rs input
      | Except.ok false => evaluate_matches rs input
      | Except.ok true =>
          match pyLookup r "Genotype" with
          | some g =>
              match evaluate_matches rs input with
              | Except.error e => Except.error e
              | Except.ok rest => Except.ok (g :: rest)
          | none => evaluate_matches rs input

/-- Python's `\w` word-character class for the ASCII range
(`[A-Za-z0-9_]`). -/
def pyWordChar (c : Char) : Bool := c.isAlphanum || c = '_'

/-- The characters of the locus name pattern `"CYP2D6*"`. -/
def locusChars : List Char := ['C', 'Y', 'P', '2', 'D', '6', '*']

/-- `re.sub(r'\bCYP2D6\*', '*', s)` (line 162): scan left to right;
at a position opening a word (`\b`), a literal `"CYP2D6*"` match is
replaced by `"*"` and scanning resumes after it (the character before
the next position is the matched `'*'`, a non-word character);
otherwise one character is copied. -/
def subLocus : Bool → List Char → List Char
  | _, [] => []
  | false, 'C' :: 'Y' :: 'P' :: '2' :: 'D' :: '6' :: '*' :: rest =>
      '*' :: subLocus false rest
  | _, c :: rest => c :: subLocus (pyWordChar c) rest

/-- `s.replace('*', 'CYP2D6*', 1)` (line 163): the first `'*'` is
replaced by `"CYP2D6*"`. -/
def replaceFirstStar : List Char → List Char
  | [] => []
  | c :: rest =>
      if c = '*' then locusChars ++ rest else c :: replaceFirstStar rest

/-- The genotype-label adjustment of `print_matches` (lines 162-163). -/
def adjustGenotype (s : String) : String :=
  ⟨replaceFirstStar (subLocus false s.data)⟩

/-- Characters that may appear after `"CYP2D6*"` inside one haplotype
name of a label: digits, the sub-variant dot, and the `x` of
duplication suffixes. -/
def tailChar (c : Char) : Bool := c.isDigit || c = '.' || c = 'x'

/-- Word-character state after scanning a character list. -/
def prevAfter (p : Bool) : List Char → Bool
  | [] => p
  | c :: t => prevAfter (pyWordChar c) t

/-!
## Dictionary lemmas
-/

section DictLemmas

variable {β : Type}

theorem pyLookup_pySetItem_self (m : List (String × β)) (k : String) (v : β) :
    pyLookup (pySetItem m k v) k = some v := by
  induction m with
  | nil => simp [pySetItem, pyLookup]
  | cons e rest ih =>
      obtain ⟨k', v'⟩ := e
      by_cases h : k' = k
      · subst h; simp [pySetItem, pyLookup]
      · simp [pySetItem, pyLookup, h, ih]

theorem pyLookup_pySetItem_ne (m : List (String × β)) (k k' : String) (v : β)
    (h : k' ≠ k) : pyLookup (pySetItem m k v) k' = pyLookup m k' := by
  have hk : ¬k = k' := fun he => h he.symm
  induction m with
  | nil => simp [pySetItem, pyLookup, hk]
  | cons e rest ih =>
      obtain ⟨k0, v0⟩ := e
      by_cases h0 : k0 = k
      · subst h0; simp [pySetItem, pyLookup, hk]
      · by_cases h1 : k0 = k'
        · subst h1; simp [pySetItem, pyLookup, h0]
        · simp [pySetItem, pyLookup, h0, h1, ih]

theorem keysOf_pySetItem (m : List (String × β)) (k : String) (v : β) :
    keysOf (pySetItem m k v) =
      if k ∈ keysOf m then keysOf m else keysOf m ++ [k] := by
  induction m with
  | nil => simp [pySetItem, keysOf]
  | cons e rest ih =>
      obtain ⟨k', v'⟩ := e
      by_cases h : k' = k
      · subst h; simp [pySetItem, keysOf]
      · have hne : ¬k = k' := fun he => h he.symm
        simp only [pySetItem, if_neg h, keysOf, List.map_cons] at ih ⊢
        rw [ih]
        by_cases hm : k ∈ List.map Prod.fst rest
        · simp [hm, hne]
        · simp [hm, hne]

theorem pyLookup_eq_none_iff (m : List (String × β)) (k : String) :
    pyLookup m k = none ↔ k ∉ keysOf m := by
  induction m with
  | nil => simp [pyLookup, keysOf]
  | cons e rest ih =>
      obtain ⟨k', v'⟩ := e
      by_cases h : k' = k
      · subst h; simp [pyLookup, keysOf]
      · have hne : ¬k = k' := fun he => h he.symm
        simp [pyLookup, keysOf, h, hne, ih]

theorem mem_keysOf_of_pyLookup {m : List (String × β)} {k : String} {v : β}
    (h : pyLookup m k = some v) : k ∈ keysOf m := by
  by_contra hk
  rw [← pyLookup_eq_none_iff] at hk
  rw [h] at hk
  cases hk

end DictLemmas

/-!
## Matcher lemmas
-/

theorem rowCheck_eq_matchB (row : AttrMap) (input : List (String × PyObj))
    (h : ∀ p ∈ input, isStrB p.2 = true) :
    rowCheck row input = Except.ok (matchB row input) := by
  induction input with
  | nil => simp [rowCheck, matchB]
  | cons p rest ih =>
      obtain ⟨k, v⟩ := p
      have hv : isStrB v = true := h (k, v) (List.mem_cons_self _ _)
      have hrest : ∀ p ∈ rest, isStrB p.2 = true :=
        fun p hp => h p (List.mem_cons_of_mem _ hp)
      cases v with
      | noneV => simp [isStrB] at hv
      | intV z => simp [isStrB] at hv
      | strV s =>
          cases hl : pyLookup row k with
          | none => simp [rowCheck, matchB, hl, ih hrest, List.all_cons]
          | some w =>
              simp [rowCheck, matchB, hl, asStr, ih hrest, List.all_cons, pyFmt]

theorem rowCheck_attrError (row : AttrMap) (input : List (String × PyObj))
    (h : ∃ p ∈ input, (pyLookup row p.1).isSome ∧ isStrB p.2 = false) :
    rowCheck row input = Except.error PyErr.attributeError := by
  induction input with
  | nil => obtain ⟨p, hp, _⟩ := h; cases hp
  | cons q rest ih =>
      obtain ⟨k, v⟩ := q
      cases hl : pyLookup row k with
      | none =>
          obtain ⟨p, hp, hps, hstr⟩ := h
          rcases List.mem_cons.mp hp with he | hm
          · exfalso; rw [he] at hps; rw [hl] at hps; cases hps
          · simp only [rowCheck, hl]
            exact ih ⟨p, hm, hps, hstr⟩
      | some w =>
          cases v with
          | noneV => simp [rowCheck, hl, asStr]
          | intV z => simp [rowCheck, hl, asStr]
          | strV s =>
              obtain ⟨p, hp, hps, hstr⟩ := h
              rcases List.mem_cons.mp hp with he | hm
              · exfalso
                have hf : isStrB (PyObj.strV s) = false := by
                  have hh := hstr; rw [he] at hh; exact hh
                simp [isStrB] at hf
              · simp [rowCheck, hl, asStr, ih ⟨p, hm, hps, hstr⟩]

theorem evaluate_matches_eq (rows : List AttrMap) (input : List (String × PyObj))
    (h : ∀ p ∈ input, isStrB p.2 = true) :
    evaluate_matches rows input =
      Except.ok (rows.filterMap
        (fun r => if matchB r input then pyLookup r "Genotype" else none)) := by
  induction rows with
  | nil => simp [evaluate_matches]
  | cons r rs ih =>
      cases hb : matchB r input with
      | false => simp [evaluate_matches, rowCheck_eq_matchB r input h, hb, ih]
      | true =>
          cases hg : pyLookup r "Genotype" with
          | none => simp [evaluate_matches, rowCheck_eq_matchB r input h, hb, hg, ih]
          | some g => simp [evaluate_matches, rowCheck_eq_matchB r input h, hb, hg, ih]

theorem matchB_iff (r : AttrMap) (input : List (String × PyObj)) :
    matchB r input = true ↔
      ∀ k v w, (k, v) ∈ input → pyLookup r k = some w →
        setEqB (pySplit (pyFmt v)) (pySplit (pyFmt w)) = true := by
  rw [matchB, List.all_eq_true]
  constructor
  · intro h k v w hm hl
    have hh := h (k, v) hm
    simpa [hl] using hh
  · intro h p hp
    cases hl : pyLookup r p.1 with
    | none => simp [hl]
    | some w => simpa [hl] using h p.1 p.2 w hp hl

/-!
## Matcher claims
-/

/-- Claim C2: `evaluate_matches` declares a row a match exactly when,
for every key present in both the observation and the row, the
unordered sets obtained by `"/"`-splitting the two sides are equal;
a row with zero overlapping keys vacuously matches. -/
theorem evaluate_matches_spec (rows : List AttrMap) (input : List (String × PyObj))
    (h : ∀ p ∈ input, isStrB p.2 = true) :
    evaluate_matches rows input =
      Except.ok (rows.filterMap
        (fun r => if matchB r input then pyLookup r "Genotype" else none)) ∧
    (∀ r : AttrMap, matchB r input = true ↔
      ∀ k v w, (k, v) ∈ input → pyLookup r k = some w →
        setEqB (pySplit (pyFmt v)) (pySplit (pyFmt w)) = true) ∧
    (∀ r : AttrMap, (∀ p ∈ input, pyLookup r p.1 = none) → matchB r input = true) := by
  refine ⟨evaluate_matches_eq rows input h, fun r => matchB_iff r input, ?_⟩
  intro r hnone
  apply (matchB_iff r input).mpr
  intro k v w hm hl
  rw [hnone (k, v) hm] at hl
  cases hl

/-- Claim C2 witness: an observation `rs1 = "G/T"` matches the row
whose `rs1` value is `"T/G"` (order-insensitive) and not the row whose
value is `"G"`. -/
theorem evaluate_matches_spec_witness :
    (∀ p ∈ ([("rs1", PyObj.strV "G/T")] : List (String × PyObj)), isStrB p.2 = true) ∧
    evaluate_matches
        [[("Genotype", PyObj.strV "H1/H2"), ("rs1", PyObj.strV "T/G")],
         [("Genotype", PyObj.strV "H1/H1"), ("rs1", PyObj.strV "G")]]
        [("rs1", PyObj.strV "G/T")] = Except.ok [PyObj.strV "H1/H2"] := by
  constructor
  · decide
  · have h := (evaluate_matches_spec
      [[("Genotype", PyObj.strV "H1/H2"), ("rs1", PyObj.strV "T/G")],
       [("Genotype", PyObj.strV "H1/H1"), ("rs1", PyObj.strV "G")]]
      [("rs1", PyObj.strV "G/T")] (by decide)).1
    exact h.trans (by decide)

/-- Claim C1 counterexample: with the diplotype row
`{Genotype: "CYP2D6*1/CYP2D6*1", rs1: "A", CNV: 2, Ranking: 4}`, two
observations that differ only in their observed CNV value get
different match decisions, so the observed CNV is not descriptive-only:
it is compared against the row's `CNV` column as a pass/fail
criterion. -/
theorem observed_cnv_affects_match :
    evaluate_matches
        [[("Genotype", PyObj.strV "CYP2D6*1/CYP2D6*1"), ("rs1", PyObj.strV "A"),
          ("CNV", PyObj.intV 2), ("Ranking", PyObj.intV 4)]]
        [("rs1", PyObj.strV "A/A"), ("CNV", PyObj.strV "2")] =
      Except.ok [PyObj.strV "CYP2D6*1/CYP2D6*1"] ∧
    evaluate_matches
        [[("Genotype", PyObj.strV "CYP2D6*1/CYP2D6*1"), ("rs1", PyObj.strV "A"),
          ("CNV", PyObj.intV 2), ("Ranking", PyObj.intV 4)]]
        [("rs1", PyObj.strV "A/A"), ("CNV", PyObj.strV "3")] =
      Except.ok [] := by
  constructor
  · decide
  · decide

/-- Claim C1 (amended): when the observation carries an observed CNV
string and the diplotype row has a `"CNV"` column, the observed CNV IS
used as a pass/fail criterion — the row fails the match whenever the
`"/"`-split set of the observed CNV differs from the `"/"`-split set
of the row's CNV value rendered as a string. -/
theorem observed_cnv_is_filter (row : AttrMap) (input : List (String × PyObj))
    (c : String) (w : PyObj)
    (hstr : ∀ p ∈ input, isStrB p.2 = true)
    (h1 : ("CNV", PyObj.strV c) ∈ input)
    (h2 : pyLookup row "CNV" = some w)
    (h3 : setEqB (pySplit c) (pySplit (pyFmt w)) = false) :
    rowCheck row input = Except.ok false := by
  rw [rowCheck_eq_matchB row input hstr]
  suffices hs : matchB row input = false by rw [hs]
  cases hb : matchB row input with
  | false => rfl
  | true =>
      exfalso
      have hc := (matchB_iff row input).mp hb "CNV" (PyObj.strV c) w h1 h2
      have hcc : pyFmt (PyObj.strV c) = c := rfl
      rw [hcc] at hc
      rw [hc] at h3
      cases h3

/-- Claim C1 witness: the amended statement at a concrete row and
observation (observed CNV `"3"` against a row CNV of `2`). -/
theorem observed_cnv_is_filter_witness :
    rowCheck [("CNV", PyObj.intV 2)] [("CNV", PyObj.strV "3")] = Except.ok false :=
  observed_cnv_is_filter [("CNV", PyObj.intV 2)] [("CNV", PyObj.strV "3")]
    "3" (PyObj.intV 2) (by decide) (by decide) (by decide) (by decide)

/-- Claim C10: the matcher's comparison is not total — when the
observation holds a non-string value (such as the `None` CNV produced
when the sample VCF has no `CYP2D6_CNV` row) under a key that is a
column of the first diplotype row, `evaluate_matches` raises an
uncaught exception (`AttributeError` while splitting), because its
handler catches `KeyError` only. -/
theorem evaluate_matches_nonstring_raises (r : AttrMap) (rs : List AttrMap)
    (input : List (String × PyObj)) (k : String) (v : PyObj)
    (h1 : (k, v) ∈ input) (h2 : isStrB v = false)
    (h3 : (pyLookup r k).isSome = true) :
    evaluate_matches (r :: rs) input = Except.error () := by
  have hrc := rowCheck_attrError r input ⟨(k, v), h1, h3, h2⟩
  simp [evaluate_matches, hrc]

/-- Claim C10 witness: the pipeline-shaped observation with
`CNV = None` against a table whose rows carry a `CNV` column makes
`evaluate_matches` raise instead of returning a match list. -/
theorem evaluate_matches_nonstring_raises_witness :
    evaluate_matches
        [[("Genotype", PyObj.strV "CYP2D6*1/CYP2D6*1"), ("rs1", PyObj.strV "A"),
          ("CNV", PyObj.intV 2)]]
        [("rs1", PyObj.strV "A/A"), ("CNV", PyObj.noneV)] = Except.error () :=
  evaluate_matches_nonstring_raises
    [("Genotype", PyObj.strV "CYP2D6*1/CYP2D6*1"), ("rs1", PyObj.strV "A"),
      ("CNV", PyObj.intV 2)] []
    [("rs1", PyObj.strV "A/A"), ("CNV", PyObj.noneV)]
    "CNV" PyObj.noneV (by decide) (by decide) (by decide)

/-!
## Genotype-label adjustment lemmas (`print_matches`)
-/

theorem subLocus_nil (p : Bool) : subLocus p [] = [] := by
  cases p <;> rfl

theorem subLocus_locus (t : List Char) :
    subLocus false (locusChars ++ t) = '*' :: subLocus false t := rfl

theorem subLocus_step (p : Bool) (c : Char) (t : List Char) (h : p = true ∨ c ≠ 'C') :
    subLocus p (c :: t) = c :: subLocus (pyWordChar c) t := by
  rw [subLocus.eq_def]
  split
  · rename_i heq
    exact absurd heq (by simp)
  · rename_i heq
    injection heq with h1 h2
    rcases h with hp | hc
    · cases hp
    · exact absurd h1 hc
  · rename_i heq
    injection heq with h1 h2
    subst h1; subst h2; rfl

theorem subLocus_append (x : List Char) (hx : ∀ c ∈ x, tailChar c = true)
    (p : Bool) (r : List Char) :
    subLocus p (x ++ r) = x ++ subLocus (prevAfter p x) r := by
  induction x generalizing p with
  | nil => simp [prevAfter]
  | cons c xs ih =>
      have hc : tailChar c = true := hx c (List.mem_cons_self _ _)
      have hxs : ∀ a ∈ xs, tailChar a = true :=
        fun a ha => hx a (List.mem_cons_of_mem _ ha)
      have hC : c ≠ 'C' := by
        intro he; rw [he] at hc; exact absurd hc (by decide)
      rw [List.cons_append, subLocus_step p c (xs ++ r) (Or.inr hC), ih hxs]
      simp [prevAfter]

theorem subLocus_tail_id (y : List Char) (hy : ∀ c ∈ y, tailChar c = true)
    (p : Bool) : subLocus p y = y := by
  have h := subLocus_append y hy p []
  simpa [subLocus_nil] using h

theorem replaceFirstStar_star (l : List Char) :
    replaceFirstStar ('*' :: l) = locusChars ++ l := rfl

/-- Claim C6 counterexample: the adjustment of `print_matches`
(lines 162-163) does NOT keep a leading combination haplotype intact:
the label `"CYP2D6*1+CYP2D6*38/CYP2D6*5"` becomes
`"CYP2D6*1+*38/*5"`, not `"CYP2D6*1+CYP2D6*38/*5"`. -/
theorem adjust_genotype_counterexample :
    adjustGenotype "CYP2D6*1+CYP2D6*38/CYP2D6*5" = "CYP2D6*1+*38/*5" ∧
      adjustGenotype "CYP2D6*1+CYP2D6*38/CYP2D6*5" ≠ "CYP2D6*1+CYP2D6*38/*5" := by
  constructor
  · decide
  · decide

/-- Claim C6 (amended): for a winning label built from two
haplotype-name components (tails over digits, `'.'`, `'x'`) joined by
`'+'` or `'/'`, the emitted genotype call keeps the locus-name on the
first component only: every later `"CYP2D6*"` occurrence — including
the second member of a leading combination — is reduced to `'*'`, with
the separator character preserved. -/
theorem adjust_genotype_amended (x y : List Char) (sep : Char)
    (hx : ∀ c ∈ x, tailChar c = true) (hy : ∀ c ∈ y, tailChar c = true)
    (hsep : sep = '+' ∨ sep = '/') :
    adjustGenotype ⟨locusChars ++ x ++ sep :: (locusChars ++ y)⟩ =
      ⟨locusChars ++ x ++ sep :: '*' :: y⟩ := by
  have hsepC : sep ≠ 'C' := by
    rcases hsep with h | h <;> (subst h; decide)
  have hsepW : pyWordChar sep = false := by
    rcases hsep with h | h <;> (subst h; decide)
  unfold adjustGenotype
  apply congrArg String.mk
  show replaceFirstStar
      (subLocus false ((locusChars ++ x) ++ sep :: (locusChars ++ y))) = _
  rw [List.append_assoc, subLocus_locus, subLocus_append x hx false _,
    subLocus_step _ sep _ (Or.inr hsepC), hsepW, subLocus_locus,
    subLocus_tail_id y hy false, replaceFirstStar_star]
  simp

/-- Claim C6 witness: the amended statement at the concrete label
`"CYP2D6*1+CYP2D6*38"`. -/
theorem adjust_genotype_amended_witness :
    adjustGenotype ⟨locusChars ++ ['1'] ++ '+' :: (locusChars ++ ['3', '8'])⟩ =
      ⟨locusChars ++ ['1'] ++ '+' :: '*' :: ['3', '8']⟩ :=
  adjust_genotype_amended ['1'] ['3', '8'] '+' (by decide) (by decide) (Or.inl rfl)

/-!
## Sub-variant collapsing lemmas (`filter_for_rsnumbers`)
-/

theorem containsDot_mainOf (s : String) : containsDot (mainOf s) = false := by
  rw [containsDot, mainOf]
  induction s.data with
  | nil => rfl
  | cons c rest ih =>
      by_cases h : c = '.'
      · simp [List.takeWhile, h]
      · simpa [List.takeWhile, h] using ih

theorem pyLookup_filter {β : Type} (l : List (String × β))
    (p : String × β → Bool) (k : String)
    (hp : ∀ v, (k, v) ∈ l → p (k, v) = true) :
    pyLookup (l.filter p) k = pyLookup l k := by
  induction l with
  | nil => rfl
  | cons e rest ih =>
      obtain ⟨k0, v0⟩ := e
      have ihr := ih (fun v hv => hp v (List.mem_cons_of_mem _ hv))
      by_cases hk : k0 = k
      · subst hk
        have hpe : p (k0, v0) = true := hp v0 (List.mem_cons_self _ _)
        simp [List.filter, hpe, pyLookup]
      · cases hpe : p (k0, v0) with
        | true => simp [List.filter, hpe, pyLookup, hk, ihr]
        | false => simp [List.filter, hpe, pyLookup, hk, ihr]

/-- Claim C9: sub-variant collapsing is idempotent — filtering an
already-collapsed table removes nothing, because base names contain no
dot and therefore survive with unchanged attribute maps. -/
theorem collapse_subvariants_idem (d : StrTable) :
    collapse_subvariants (collapse_subvariants d) = collapse_subvariants d := by
  apply List.filter_eq_self.mpr
  intro e he
  obtain ⟨hed, hpe⟩ := List.mem_filter.mp he
  by_cases hdot : containsDot e.1
  · have hlk : pyLookup (collapse_subvariants d) (mainOf e.1) =
        pyLookup d (mainOf e.1) := by
      apply pyLookup_filter
      intro v hv
      simp [containsDot_mainOf]
    have hne : decide (pyLookup d (mainOf e.1) = some e.2) = false := by
      rw [hdot] at hpe
      simpa using hpe
    rw [hdot, hlk]
    simpa using hne
  · simp [hdot]

/-!
## CNV Annotator lemmas (`add_cnv_values_ex9`)
-/

theorem pyLookup_mapEntries {γ : Type} (l : List (String × γ))
    (f : String → γ → γ) (k : String) :
    pyLookup (l.map (fun e => (e.1, f e.1 e.2))) k = (pyLookup l k).map (f k) := by
  induction l with
  | nil => rfl
  | cons e rest ih =>
      obtain ⟨k0, v0⟩ := e
      by_cases hk : k0 = k
      · subst hk; simp [pyLookup]
      · simp [pyLookup, hk, ih]

/-- Claim C7: the CNV Annotator assigns every haplotype CNV 1 by
default, 0 for names on the exception list, and the override mapping's
value for names in the override mapping; the override is applied after
the exception check, so a name on both ends with the override's
value. -/
theorem add_cnv_values_ex9_spec (data : Table) (excs : List String)
    (ovs : List (String × Int)) (name : String) (m : AttrMap)
    (h : pyLookup data name = some m) :
    ∃ m', pyLookup (add_cnv_values_ex9 data excs ovs) name = some m' ∧
      (pyLookup ovs name = none → name ∉ excs →
        pyLookup m' "CNV" = some (PyObj.intV 1)) ∧
      (pyLookup ovs name = none → name ∈ excs →
        pyLookup m' "CNV" = some (PyObj.intV 0)) ∧
      (∀ v, pyLookup ovs name = some v →
        pyLookup m' "CNV" = some (PyObj.intV v)) := by
  refine ⟨cnvStepEntry excs ovs name m, ?_, ?_, ?_, ?_⟩
  · rw [add_cnv_values_ex9, pyLookup_mapEntries data (cnvStepEntry excs ovs) name, h]
    rfl
  · intro ho hexc
    rw [cnvStepEntry]
    simp only [ho]
    simp [hexc, pyLookup_pySetItem_self]
  · intro ho hexc
    rw [cnvStepEntry]
    simp only [ho]
    simp [hexc, pyLookup_pySetItem_self]
  · intro v ho
    rw [cnvStepEntry]
    simp only [ho]
    simp [pyLookup_pySetItem_self]

/-!
## Pair Generator lemmas (`pair_haplotypes`)
-/

theorem mergeGo_ok (d1 d2 : AttrMap) (ks : List String) :
    ∀ cur : AttrMap,
      (∀ k ∈ ks, ∃ v, combineVal k (pyGet d1 k) (pyGet d2 k) = Except.ok v) →
      ∃ m, mergeGo d1 d2 ks cur = Except.ok m ∧
        ∀ k, pyLookup m k =
          if k ∈ ks then (combineVal k (pyGet d1 k) (pyGet d2 k)).toOption
          else pyLookup cur k := by
  induction ks with
  | nil =>
      intro cur _
      exact ⟨cur, rfl, fun k => by simp⟩
  | cons k0 ks ih =>
      intro cur h
      obtain ⟨v0, hv0⟩ := h k0 (List.mem_cons_self _ _)
      have hrest : ∀ k ∈ ks, ∃ v, combineVal k (pyGet d1 k) (pyGet d2 k) = Except.ok v :=
        fun k hk => h k (List.mem_cons_of_mem _ hk)
      obtain ⟨m, hm, hlk⟩ := ih (pySetItem cur k0 v0) hrest
      refine ⟨m, ?_, ?_⟩
      · simp only [mergeGo, hv0]
        exact hm
      · intro k
        by_cases hk : k ∈ ks
        · rw [hlk k]
          simp [hk]
        · by_cases hk0 : k = k0
          · subst hk0
            rw [hlk k]
            simp [hk, pyLookup_pySetItem_self, hv0, Except.toOption]
          · rw [hlk k]
            simp [hk, hk0, pyLookup_pySetItem_ne cur k0 k v0 hk0]

/-- Claim C3: for every generated pair (self-pairs included) of
haplotypes carrying integer `CNV` and `Ranking`, the merged diplotype
record holds the arithmetic sums as numbers, never string joins. -/
theorem pair_cnv_ranking_sums (data : Table) (a b : String) (d1 d2 : AttrMap)
    (c1 c2 r1 r2 : Int)
    (_hp : (a, b) ∈ cwr (keysOf data))
    (_hda : pyLookup data a = some d1) (_hdb : pyLookup data b = some d2)
    (hc1 : pyLookup d1 "CNV" = some (PyObj.intV c1))
    (hc2 : pyLookup d2 "CNV" = some (PyObj.intV c2))
    (hr1 : pyLookup d1 "Ranking" = some (PyObj.intV r1))
    (hr2 : pyLookup d2 "Ranking" = some (PyObj.intV r2)) :
    ∃ m, mergePair d1 d2 = Except.ok m ∧
      pyLookup m "CNV" = some (PyObj.intV (c1 + c2)) ∧
      pyLookup m "Ranking" = some (PyObj.intV (r1 + r2)) := by
  have hg1 : pyGet d1 "CNV" = PyObj.intV c1 := by rw [pyGet, hc1]; rfl
  have hg2 : pyGet d2 "CNV" = PyObj.intV c2 := by rw [pyGet, hc2]; rfl
  have hg3 : pyGet d1 "Ranking" = PyObj.intV r1 := by rw [pyGet, hr1]; rfl
  have hg4 : pyGet d2 "Ranking" = PyObj.intV r2 := by rw [pyGet, hr2]; rfl
  have hall : ∀ k ∈ unionKeys d1 d2,
      ∃ v, combineVal k (pyGet d1 k) (pyGet d2 k) = Except.ok v := by
    intro k _
    by_cases hC : k = "CNV"
    · subst hC
      exact ⟨PyObj.intV (c1 + c2), by simp [combineVal, hg1, hg2, pyAdd]⟩
    · by_cases hR : k = "Ranking"
      · subst hR
        exact ⟨PyObj.intV (r1 + r2), by simp [combineVal, hg3, hg4, pyAdd]⟩
      · exact ⟨if pyGet d1 k = pyGet d2 k then pyGet d1 k
          else PyObj.strV (pyFmt (pyGet d1 k) ++ "/" ++ pyFmt (pyGet d2 k)),
          by simp [combineVal, hC, hR]⟩
  obtain ⟨m, hm, hlk⟩ := mergeGo_ok d1 d2 (unionKeys d1 d2) [] hall
  have hCNVmem : "CNV" ∈ unionKeys d1 d2 := by
    rw [unionKeys, List.mem_dedup]
    exact List.mem_append_left _ (mem_keysOf_of_pyLookup hc1)
  have hRmem : "Ranking" ∈ unionKeys d1 d2 := by
    rw [unionKeys, List.mem_dedup]
    exact List.mem_append_left _ (mem_keysOf_of_pyLookup hr1)
  refine ⟨m, hm, ?_, ?_⟩
  · rw [hlk "CNV", if_pos hCNVmem]
    simp [combineVal, hg1, hg2, pyAdd, Except.toOption]
  · rw [hlk "Ranking", if_pos hRmem]
    simp [combineVal, hg3, hg4, pyAdd, Except.toOption]

/-- Claim C3 witness: the self-pair of a CNV-1, Ranking-2 haplotype
merges to CNV 2 and Ranking 4 (both doubled, both numeric). -/
theorem pair_cnv_ranking_sums_witness :
    ∃ m, mergePair
        [("rs1", PyObj.strV "A"), ("CNV", PyObj.intV 1), ("Ranking", PyObj.intV 2)]
        [("rs1", PyObj.strV "A"), ("CNV", PyObj.intV 1), ("Ranking", PyObj.intV 2)] =
      Except.ok m ∧
      pyLookup m "CNV" = some (PyObj.intV (1 + 1)) ∧
      pyLookup m "Ranking" = some (PyObj.intV (2 + 2)) :=
  pair_cnv_ranking_sums
    [("CYP2D6*1",
      [("rs1", PyObj.strV "A"), ("CNV", PyObj.intV 1), ("Ranking", PyObj.intV 2)])]
    "CYP2D6*1" "CYP2D6*1"
    [("rs1", PyObj.strV "A"), ("CNV", PyObj.intV 1), ("Ranking", PyObj.intV 2)]
    [("rs1", PyObj.strV "A"), ("CNV", PyObj.intV 1), ("Ranking", PyObj.intV 2)]
    1 1 2 2 (by decide) (by decide) (by decide)
    (by decide) (by decide) (by decide) (by decide)

/-!
## Canonical label lemmas
-/

theorem myData_append (x y : String) : (x ++ y).data = x.data ++ y.data := by
  cases x; cases y; rfl

theorem str_data_inj {a b : String} (h : a.data = b.data) : a = b :=
  congrArg String.mk h

theorem splitInjL (a : List Char) :
    ∀ (c b d : List Char), '/' ∉ a → '/' ∉ c →
      a ++ '/' :: b = c ++ '/' :: d → a = c ∧ b = d := by
  induction a with
  | nil =>
      intro c b d _ hc h
      cases c with
      | nil =>
          simp only [List.nil_append] at h
          injection h with _ h2
          exact ⟨rfl, h2⟩
      | cons c0 cs =>
          simp only [List.nil_append, List.cons_append] at h
          injection h with h1 _
          rw [← h1] at hc
          exact absurd (List.mem_cons_self '/' cs) hc
  | cons a0 as ih =>
      intro c b d ha hc h
      cases c with
      | nil =>
          simp only [List.cons_append, List.nil_append] at h
          injection h with h1 _
          rw [h1] at ha
          exact absurd (List.mem_cons_self '/' as) ha
      | cons c0 cs =>
          simp only [List.cons_append] at h
          injection h with h1 h2
          have ha' : '/' ∉ as := fun hm => ha (List.mem_cons_of_mem _ hm)
          have hc' : '/' ∉ cs := fun hm => hc (List.mem_cons_of_mem _ hm)
          obtain ⟨he1, he2⟩ := ih cs b d ha' hc' h2
          exact ⟨by rw [h1, he1], he2⟩

theorem slash_append_inj (a b c d : String) (ha : slashFree a) (hc : slashFree c)
    (h : a ++ "/" ++ b = c ++ "/" ++ d) : a = c ∧ b = d := by
  have hd : a.data ++ '/' :: b.data = c.data ++ '/' :: d.data := by
    have hdd := congrArg String.data h
    simpa [myData_append, List.append_assoc] using hdd
  obtain ⟨h1, h2⟩ := splitInjL a.data c.data b.data d.data ha hc hd
  exact ⟨str_data_inj h1, str_data_inj h2⟩

theorem sort2_or (a b : String) : sort2 a b = (a, b) ∨ sort2 a b = (b, a) := by
  rw [sort2]
  by_cases h : extract_numeric_value b < extract_numeric_value a
  · rw [if_pos h]; exact Or.inr rfl
  · rw [if_neg h]; exact Or.inl rfl

theorem pairLabel_eq_cases (a b c d : String)
    (ha : slashFree a) (hb : slashFree b) (hc : slashFree c) (hd : slashFree d)
    (h : pairLabel (a, b) = pairLabel (c, d)) :
    (a = c ∧ b = d) ∨ (a = d ∧ b = c) := by
  simp only [pairLabel] at h
  rcases sort2_or a b with h1 | h1 <;> rcases sort2_or c d with h2 | h2 <;>
    rw [h1, h2] at h
  · exact Or.inl (slash_append_inj a b c d ha hc h)
  · exact Or.inr (slash_append_inj a b d c ha hd h)
  · obtain ⟨e1, e2⟩ := slash_append_inj b a c d hb hc h
    exact Or.inr ⟨e2, e1⟩
  · obtain ⟨e1, e2⟩ := slash_append_inj b a d c hb hd h
    exact Or.inl ⟨e2, e1⟩

/-- Claim C5 counterexample: the names `"CYP2D6*10"` and
`"CYP2D6*10.001"` have equal numeric keys (both 10), so pairing them
in the two argument orders produces different canonical labels; and
the merged content of a site at which the haplotypes differ is joined
in argument order, so it differs between the two orders as well. -/
theorem pair_order_counterexample :
    pairLabel ("CYP2D6*10", "CYP2D6*10.001") ≠
      pairLabel ("CYP2D6*10.001", "CYP2D6*10") ∧
    mergePair [("rs1", PyObj.strV "A"), ("CNV", PyObj.intV 1), ("Ranking", PyObj.intV 0)]
        [("rs1", PyObj.strV "G"), ("CNV", PyObj.intV 1), ("Ranking", PyObj.intV 0)] ≠
      mergePair [("rs1", PyObj.strV "G"), ("CNV", PyObj.intV 1), ("Ranking", PyObj.intV 0)]
        [("rs1", PyObj.strV "A"), ("CNV", PyObj.intV 1), ("Ranking", PyObj.intV 0)] := by
  constructor
  · decide
  · decide

/-- Claim C5 (amended): for slash-free names, the per-pair computation
on `(A,B)` and `(B,A)` yields the same canonical label exactly when
`A = B` or the extracted numeric keys differ (for distinct names with
equal keys the stable sort preserves argument order and the labels
differ); merged `CNV` and `Ranking` agree between the two orders,
while a site at which the two values differ is joined in argument
order, hence reversed between the two orders. -/
theorem pair_order_spec (A B : String) (hA : slashFree A) (hB : slashFree B) :
    (pairLabel (A, B) = pairLabel (B, A) ↔
      (A = B ∨ extract_numeric_value A ≠ extract_numeric_value B)) ∧
    (∀ a b : Int, combineVal "CNV" (PyObj.intV a) (PyObj.intV b) =
      combineVal "CNV" (PyObj.intV b) (PyObj.intV a)) ∧
    (∀ a b : Int, combineVal "Ranking" (PyObj.intV a) (PyObj.intV b) =
      combineVal "Ranking" (PyObj.intV b) (PyObj.intV a)) ∧
    (∀ (k : String) (v1 v2 : PyObj), ¬(k = "CNV" ∨ k = "Ranking") → v1 ≠ v2 →
      combineVal k v1 v2 = Except.ok (PyObj.strV (pyFmt v1 ++ "/" ++ pyFmt v2)) ∧
      combineVal k v2 v1 = Except.ok (PyObj.strV (pyFmt v2 ++ "/" ++ pyFmt v1))) := by
  refine ⟨?_, ?_, ?_, ?_⟩
  · constructor
    · intro h
      by_cases hAB : A = B
      · exact Or.inl hAB
      · right
        intro hk
        have s1 : sort2 A B = (A, B) := by
          rw [sort2, if_neg]; rw [hk]; exact lt_irrefl _
        have s2 : sort2 B A = (B, A) := by
          rw [sort2, if_neg]; rw [hk]; exact lt_irrefl _
        simp only [pairLabel, s1, s2] at h
        exact hAB (slash_append_inj A B B A hA hB h).1
    · intro h
      rcases h with h | h
      · rw [h]
      · rcases Nat.lt_or_ge (extract_numeric_value A) (extract_numeric_value B)
          with hlt | hge
        · have s1 : sort2 A B = (A, B) := by
            rw [sort2, if_neg (Nat.not_lt.mpr (Nat.le_of_lt hlt))]
          have s2 : sort2 B A = (A, B) := by
            rw [sort2, if_pos hlt]
          simp only [pairLabel, s1, s2]
        · have hgt : extract_numeric_value B < extract_numeric_value A :=
            Nat.lt_of_le_of_ne hge (fun he => h he.symm)
          have s1 : sort2 A B = (B, A) := by rw [sort2, if_pos hgt]
          have s2 : sort2 B A = (B, A) := by
            rw [sort2, if_neg (Nat.not_lt.mpr (Nat.le_of_lt hgt))]
          simp only [pairLabel, s1, s2]
  · intro a b; simp [combineVal, pyAdd, Int.add_comm]
  · intro a b; simp [combineVal, pyAdd, Int.add_comm]
  · intro k v1 v2 hk hne
    constructor
    · simp only [combineVal, if_neg hk, if_neg hne]
    · simp only [combineVal, if_neg hk,
        if_neg (fun he => hne he.symm : ¬v2 = v1)]

/-- Claim C5 witness: the amended statement at two slash-free names
with distinct numeric keys. -/
theorem pair_order_spec_witness :
    pairLabel ("CYP2D6*2", "CYP2D6*1") = pairLabel ("CYP2D6*1", "CYP2D6*2") := by
  have h := (pair_order_spec "CYP2D6*2" "CYP2D6*1" (by decide) (by decide)).1
  exact h.mpr (Or.inr (by decide))

/-!
## Pair counting lemmas
-/

theorem cwr_length {α : Type} (l : List α) :
    (cwr l).length * 2 = l.length * (l.length + 1) := by
  induction l with
  | nil => rfl
  | cons x xs ih =>
      simp only [cwr, List.length_append, List.length_map, List.length_cons]
      calc (xs.length + 1 + (cwr xs).length) * 2
          = (xs.length + 1) * 2 + (cwr xs).length * 2 := by ring
        _ = (xs.length + 1) * 2 + xs.length * (xs.length + 1) := by rw [ih]
        _ = (xs.length + 1) * (xs.length + 1 + 1) := by ring

theorem mem_cwr {α : Type} (p : α × α) (l : List α) (h : p ∈ cwr l) :
    p.1 ∈ l ∧ p.2 ∈ l := by
  induction l with
  | nil => cases h
  | cons x xs ih =>
      rw [cwr] at h
      rcases List.mem_append.mp h with h1 | h2
      · obtain ⟨y, hy, he⟩ := List.mem_map.mp h1
        constructor
        · rw [← he]; exact List.mem_cons_self _ _
        · rw [← he]; exact hy
      · obtain ⟨ha, hb⟩ := ih h2
        exact ⟨List.mem_cons_of_mem _ ha, List.mem_cons_of_mem _ hb⟩

theorem cwr_labels_nodup (l : List String) (hn : l.Nodup)
    (hs : ∀ s ∈ l, slashFree s) :
    (List.map pairLabel (cwr l)).Nodup := by
  induction l with
  | nil => simp [cwr]
  | cons x xs ih =>
      rw [cwr, List.map_append, List.map_map]
      have hx : slashFree x := hs x (List.mem_cons_self _ _)
      have hxs : ∀ s ∈ xs, slashFree s := fun s h => hs s (List.mem_cons_of_mem _ h)
      have hnx : x ∉ xs := (List.nodup_cons.mp hn).1
      have hnxs : xs.Nodup := (List.nodup_cons.mp hn).2
      rw [List.nodup_append]
      refine ⟨?_, ih hnxs hxs, ?_⟩
      · apply List.Nodup.map_on ?_ hn
        intro y hy y' hy' he
        have he' : pairLabel (x, y) = pairLabel (x, y') := he
        rcases pairLabel_eq_cases x y x y'
            hx (hs y hy) hx (hs y' hy') he' with ⟨_, h2⟩ | ⟨h1, h2⟩
        · exact h2
        · exact h2.trans h1
      · intro s hs1 hs2
        obtain ⟨y, hy, hey⟩ := List.mem_map.mp hs1
        obtain ⟨q, hq, heq⟩ := List.mem_map.mp hs2
        have hq12 := mem_cwr q xs hq
        have he : pairLabel (x, y) = pairLabel (q.1, q.2) := by
          have h1 : pairLabel (x, y) = s := hey
          have h2 : pairLabel (q.1, q.2) = s := heq
          rw [h1, h2]
        rcases pairLabel_eq_cases x y q.1 q.2 hx (hs y hy)
            (hxs q.1 hq12.1) (hxs q.2 hq12.2) he with ⟨h1, _⟩ | ⟨h1, _⟩
        · exact hnx (h1 ▸ hq12.1)
        · exact hnx (h1 ▸ hq12.2)

theorem pairStep_ok_keys (data t t' : Table) (p : String × String)
    (h : pairStep data t p = Except.ok t') :
    keysOf t' = if pairLabel p ∈ keysOf t then keysOf t
      else keysOf t ++ [pairLabel p] := by
  unfold pairStep at h
  cases hmg : mergeGo ((pyLookup data p.1).getD []) ((pyLookup data p.2).getD [])
      (unionKeys ((pyLookup data p.1).getD []) ((pyLookup data p.2).getD []))
      ((pyLookup t (pairLabel p)).getD []) with
  | error e => rw [hmg] at h; cases h
  | ok m =>
      rw [hmg] at h
      injection h with h'
      rw [← h', keysOf_pySetItem]

theorem pairsGo_ok_keys (data : Table) (ps : List (String × String)) :
    ∀ t t' : Table,
      pairsGo data ps t = Except.ok t' →
      (List.map pairLabel ps).Nodup →
      (∀ q ∈ ps, pairLabel q ∉ keysOf t) →
      keysOf t' = keysOf t ++ List.map pairLabel ps := by
  induction ps with
  | nil =>
      intro t t' h _ _
      injection h with h'
      rw [← h']
      simp
  | cons p ps ih =>
      intro t t' h hnd hdisj
      simp only [List.map_cons, List.nodup_cons] at hnd
      obtain ⟨hnotin, hnd'⟩ := hnd
      simp only [pairsGo] at h
      cases hstep : pairStep data t p with
      | error e => rw [hstep] at h; cases h
      | ok t1 =>
          rw [hstep] at h
          have hk1 : keysOf t1 = keysOf t ++ [pairLabel p] := by
            rw [pairStep_ok_keys data t t1 p hstep,
              if_neg (hdisj p (List.mem_cons_self _ _))]
          have hdisj' : ∀ q ∈ ps, pairLabel q ∉ keysOf t1 := by
            intro q hq hmem
            rw [hk1] at hmem
            rcases List.mem_append.mp hmem with hA | hB
            · exact hdisj q (List.mem_cons_of_mem _ hq) hA
            · have hqp : pairLabel q = pairLabel p := by simpa using hB
              exact hnotin (hqp ▸ List.mem_map_of_mem pairLabel hq)
          rw [ih t1 t' h hnd' hdisj', hk1, List.append_assoc]
          rfl

/-- Claim C4 counterexample: four pairwise-distinct names containing
the `'/'` character make two different unordered pairs collide on the
canonical label `"A/B/C"`, so `pair_haplotypes` produces 9 entries
instead of `4*(4+1)/2 = 10`. -/
theorem pair_haplotypes_count_counterexample :
    (keysOf ([("A", []), ("B/C", []), ("A/B", []), ("C", [])] : Table)).Nodup ∧
    (keysOf ([("A", []), ("B/C", []), ("A/B", []), ("C", [])] : Table)).length = 4 ∧
    pair_haplotypes [("A", []), ("B/C", []), ("A/B", []), ("C", [])] =
      Except.ok [("A/A", []), ("A/B/C", []), ("A/A/B", []), ("A/C", []),
        ("B/C/B/C", []), ("B/C/A/B", []), ("B/C/C", []), ("A/B/A/B", []),
        ("C/C", [])] ∧
    (9 : Nat) ≠ 4 * (4 + 1) / 2 := by
  refine ⟨by decide, by decide, by decide, by decide⟩

/-- Claim C4 (amended): for a table whose names are pairwise distinct
AND contain no `'/'` character, a successful run of `pair_haplotypes`
yields a mapping with exactly `n*(n+1)/2` entries and no duplicate
labels. -/
theorem pair_haplotypes_count (data t : Table)
    (h1 : (keysOf data).Nodup)
    (h2 : ∀ n ∈ keysOf data, slashFree n)
    (h3 : pair_haplotypes data = Except.ok t) :
    (keysOf t).Nodup ∧
    (keysOf t).length = (keysOf data).length * ((keysOf data).length + 1) / 2 := by
  have hnd := cwr_labels_nodup (keysOf data) h1 h2
  rw [pair_haplotypes] at h3
  have hk := pairsGo_ok_keys data (cwr (keysOf data)) [] t h3 hnd
    (by intro q hq; simp [keysOf])
  have hk' : keysOf t = List.map pairLabel (cwr (keysOf data)) := by
    rw [hk]; rfl
  constructor
  · rw [hk']; exact hnd
  · rw [hk', List.length_map]
    have hl := cwr_length (keysOf data)
    omega

/-- Claim C4 witness: two slash-free names produce `2*3/2 = 3`
distinct diplotype labels. -/
theorem pair_haplotypes_count_witness :
    (keysOf [("CYP2D6*1/CYP2D6*1", ([] : AttrMap)),
      ("CYP2D6*1/CYP2D6*5", []), ("CYP2D6*5/CYP2D6*5", [])]).Nodup ∧
    (keysOf [("CYP2D6*1/CYP2D6*1", ([] : AttrMap)),
      ("CYP2D6*1/CYP2D6*5", []), ("CYP2D6*5/CYP2D6*5", [])]).length =
      (keysOf [("CYP2D6*1", ([] : AttrMap)), ("CYP2D6*5", [])]).length *
        ((keysOf [("CYP2D6*1", ([] : AttrMap)), ("CYP2D6*5", [])]).length + 1) / 2 :=
  pair_haplotypes_count [("CYP2D6*1", []), ("CYP2D6*5", [])]
    [("CYP2D6*1/CYP2D6*1", []), ("CYP2D6*1/CYP2D6*5", []),
      ("CYP2D6*5/CYP2D6*5", [])]
    (by decide) (by decide) (by decide)

/-- Claim C7 witness: a haplotype on both the exception list and the
override mapping ends with the override's CNV value 5, not 0 and
not 1. -/
theorem add_cnv_values_ex9_witness :
    ∃ m', pyLookup (add_cnv_values_ex9 [("CYP2D6*36", [])] ["CYP2D6*36"]
        [("CYP2D6*36", 5)]) "CYP2D6*36" = some m' ∧
      pyLookup m' "CNV" = some (PyObj.intV 5) := by
  obtain ⟨m', h1, _, _, h4⟩ :=
    add_cnv_values_ex9_spec [("CYP2D6*36", [])] ["CYP2D6*36"]
      [("CYP2D6*36", 5)] "CYP2D6*36" [] (by decide)
  exact ⟨m', h1, h4 5 (by decide)⟩

/-!
## Special Combination Expander lemmas
-/

theorem lexLe_total (a : List Char) : ∀ b, lexLe a b = true ∨ lexLe b a = true := by
  induction a with
  | nil => intro b; exact Or.inl rfl
  | cons x xs ih =>
      intro b
      cases b with
      | nil => exact Or.inr rfl
      | cons y ys =>
          by_cases h1 : x.toNat < y.toNat
          · left; simp [lexLe, h1]
          · by_cases h2 : y.toNat < x.toNat
            · right; simp [lexLe, h2]
            · rcases ih ys with h | h
              · left; simp [lexLe, h1, h2, h]
              · right; simp [lexLe, h1, h2, h]

theorem lexLe_trans (a : List Char) :
    ∀ b c, lexLe a b = true → lexLe b c = true → lexLe a c = true := by
  induction a with
  | nil => intro b c _ _; rfl
  | cons x xs ih =>
      intro b c hab hbc
      cases b with
      | nil => simp [lexLe] at hab
      | cons y ys =>
          cases c with
          | nil => simp [lexLe] at hbc
          | cons z zs =>
              simp only [lexLe] at hab hbc ⊢
              have hxy : x.toNat ≤ y.toNat := by
                by_contra h
                push_neg at h
                rw [if_neg (by omega), if_pos (by omega)] at hab
                cases hab
              have hyz : y.toNat ≤ z.toNat := by
                by_contra h
                push_neg at h
                rw [if_neg (by omega), if_pos (by omega)] at hbc
                cases hbc
              by_cases hxz : x.toNat < z.toNat
              · rw [if_pos hxz]
              · rw [if_neg hxz, if_neg (by omega)]
                rw [if_neg (by omega), if_neg (by omega)] at hab
                rw [if_neg (by omega), if_neg (by omega)] at hbc
                exact ih ys zs hab hbc

instance strLeIsTotal : IsTotal String (fun a b => strLe a b = true) :=
  ⟨fun a b => lexLe_total a.data b.data⟩

instance strLeIsTrans : IsTrans String (fun a b => strLe a b = true) :=
  ⟨fun a b c => lexLe_trans a.data b.data c.data⟩

theorem sortStr_sorted (l : List String) :
    (sortStr l).Sorted (fun a b => strLe a b = true) :=
  List.sorted_insertionSort _ l

theorem sortStr_perm (l : List String) : List.Perm (sortStr l) l :=
  List.perm_insertionSort _ l

theorem collectNames_congr (d d' : StrTable) (combo : List String) (k : String)
    (h : ∀ p ∈ combo, pyLookup d p = pyLookup d' p) :
    collectNames d combo k = collectNames d' combo k := by
  rw [collectNames, collectNames]
  induction combo with
  | nil => rfl
  | cons p rest ih =>
      have hp := h p (List.mem_cons_self _ _)
      have hrest := fun q hq => h q (List.mem_cons_of_mem _ hq)
      simp only [List.filterMap_cons, hp, ih hrest]

theorem collectNames_filter_known (d : StrTable) (combo : List String) (k : String) :
    collectNames d combo k =
      collectNames d (combo.filter (fun p => decide (p ∈ keysOf d))) k := by
  induction combo with
  | nil => rfl
  | cons p rest ih =>
      cases hl : pyLookup d p with
      | none =>
          have hmem : p ∉ keysOf d := (pyLookup_eq_none_iff d p).mp hl
          simp [collectNames, List.filterMap_cons, List.filter_cons, hmem, hl,
            collectNames] at ih ⊢
          exact ih
      | some m =>
          have hmem : p ∈ keysOf d := mem_keysOf_of_pyLookup hl
          simp [collectNames, List.filterMap_cons, List.filter_cons, hmem, hl,
            collectNames] at ih ⊢
          cases pyLookup m k with
          | none => exact ih
          | some v => simp [ih]

theorem sc_go_spec (cname : String) (combo : List String) (data : StrTable)
    (hc : cname ∉ combo) (ks : List String) :
    ∀ (d : StrTable) (m0 : StrAttrMap),
      (∀ p, p ≠ cname → pyLookup d p = pyLookup data p) →
      pyLookup d cname = some m0 →
      ∃ m', pyLookup (sc_go cname combo ks d) cname = some m' ∧
        (∀ p, p ≠ cname → pyLookup (sc_go cname combo ks d) p = pyLookup data p) ∧
        ∀ k, pyLookup m' k =
          if k ∈ ks then some (mergedName (collectNames data combo k))
          else pyLookup m0 k := by
  induction ks with
  | nil =>
      intro d m0 hinv hl
      exact ⟨m0, hl, hinv, fun k => by simp⟩
  | cons k0 ks ih =>
      intro d m0 hinv hl
      have hcur : (pyLookup d cname).getD [] = m0 := by rw [hl]; rfl
      have hnames : collectNames d combo k0 = collectNames data combo k0 :=
        collectNames_congr d data combo k0
          (fun p hp => hinv p (fun he => hc (he ▸ hp)))
      have hstep : sc_go cname combo (k0 :: ks) d =
          sc_go cname combo ks
            (pySetItem d cname
              (pySetItem m0 k0 (mergedName (collectNames data combo k0)))) := by
        simp only [sc_go]
        rw [hcur, hnames]
      have hinv1 : ∀ p, p ≠ cname →
          pyLookup (pySetItem d cname
            (pySetItem m0 k0 (mergedName (collectNames data combo k0)))) p =
          pyLookup data p := by
        intro p hp
        rw [pyLookup_pySetItem_ne _ _ _ _ hp]
        exact hinv p hp
      have hl1 : pyLookup (pySetItem d cname
            (pySetItem m0 k0 (mergedName (collectNames data combo k0)))) cname =
          some (pySetItem m0 k0 (mergedName (collectNames data combo k0))) :=
        pyLookup_pySetItem_self _ _ _
      obtain ⟨m', hm1, hm2, hm3⟩ := ih _ _ hinv1 hl1
      refine ⟨m', by rw [hstep]; exact hm1, by rw [hstep]; exact hm2, ?_⟩
      intro k
      rw [hm3 k]
      by_cases hk : k ∈ ks
      · simp [hk, List.mem_cons]
      · by_cases hk0 : k = k0
        · subst hk0
          simp [hk, pyLookup_pySetItem_self]
        · simp [hk, hk0, pyLookup_pySetItem_ne _ k0 k _ hk0]

/-- Claim C8: for every combination tuple and catalog site id, the
synthesized haplotype's merged allele is the sentinel `"-"` when no
existing member contributes a value, the single common value when all
contributions agree, and otherwise the distinct contributed values in
ascending (alphabetical) order joined with `"/"`; a member naming an
unknown haplotype contributes nothing and is quietly skipped. -/
theorem special_combinations_spec (data : StrTable) (combo : List String)
    (rsIds : List String) (k : String)
    (hk : k ∈ rsIds) (hc : joinPlusName combo ∉ combo) :
    (∃ m', pyLookup (sc_one data combo rsIds) (joinPlusName combo) = some m' ∧
      pyLookup m' k = some (mergedName (collectNames data combo k))) ∧
    collectNames data combo k =
      collectNames data (combo.filter (fun p => decide (p ∈ keysOf data))) k ∧
    mergedName [] = "-" ∧
    (∀ (v : String) (vs : List String),
      vs.all (fun s => decide (s = v)) = true → mergedName (v :: vs) = v) ∧
    (∀ (v : String) (vs : List String),
      vs.all (fun s => decide (s = v)) = false →
        mergedName (v :: vs) = joinWith "/" (sortStr ((v :: vs).dedup))) ∧
    (sortStr ((collectNames data combo k).dedup)).Sorted
      (fun a b => strLe a b = true) ∧
    List.Perm (sortStr ((collectNames data combo k).dedup))
      ((collectNames data combo k).dedup) := by
  refine ⟨?_, collectNames_filter_known data combo k, rfl, ?_, ?_,
    sortStr_sorted _, sortStr_perm _⟩
  · have hinv : ∀ p, p ≠ joinPlusName combo →
        pyLookup (pySetItem data (joinPlusName combo) []) p = pyLookup data p :=
      fun p hp => pyLookup_pySetItem_ne _ _ _ _ hp
    have hl : pyLookup (pySetItem data (joinPlusName combo) [])
        (joinPlusName combo) = some [] := pyLookup_pySetItem_self _ _ _
    obtain ⟨m', hm1, _, hm3⟩ :=
      sc_go_spec (joinPlusName combo) combo data hc rsIds _ [] hinv hl
    refine ⟨m', hm1, ?_⟩
    rw [hm3 k, if_pos hk]
  · intro v vs h; simp [mergedName, h]
  · intro v vs h; simp [mergedName, h]

/-- Claim C8 witness: the combination
`("CYP2D6*1", "CYP2D6*38", "GHOST")` over a table that knows only the
first two members merges site `rs1` from values `"A"` and `"G"` to
`"A/G"`; the unknown member `"GHOST"` is skipped. -/
theorem special_combinations_spec_witness :
    ∃ m', pyLookup
        (sc_one [("CYP2D6*1", [("rs1", "A")]), ("CYP2D6*38", [("rs1", "G")])]
          ["CYP2D6*1", "CYP2D6*38", "GHOST"] ["rs1"])
        (joinPlusName ["CYP2D6*1", "CYP2D6*38", "GHOST"]) = some m' ∧
      pyLookup m' "rs1" = some "A/G" := by
  obtain ⟨m', h1, h2⟩ := (special_combinations_spec
    [("CYP2D6*1", [("rs1", "A")]), ("CYP2D6*38", [("rs1", "G")])]
    ["CYP2D6*1", "CYP2D6*38", "GHOST"] ["rs1"] "rs1"
    (by decide) (by decide)).1
  refine ⟨m', h1, ?_⟩
  rw [h2]
  decide
